import Mathlib

/-!
Shallow embedding of the binary FBX event-parsing core of `fbxcel`
(`src/parser/binary/event/mod.rs`, `src/parser/binary/event/attribute/special.rs`,
and the loader helper `separate_name_class` of
`src/loader/binary/simple/fbx7400/fbx_header_extension.rs`), together with
theorems settling the specification claims about it.

Modelling conventions:
* the byte source is a `List Nat` of bytes together with the count of bytes
  consumed so far (the `CountReader` position);
* machine integers are `Nat` (all the arithmetic below stays far below
  2^64, and `u64` subtractions in the source are performed only when the
  subtrahend cannot exceed the minuend, so `Nat` truncated subtraction
  agrees with the source);
* fallible reads return `Option`/`Except`; a Rust panic (`assert!`,
  `expect`, `unreachable!`) is modelled as the outer `Option` being `none`,
  while a recoverable `Err` is `some (Except.error e)`.
-/

set_option maxHeartbeats 1000000
set_option maxRecDepth 100000

namespace Fbxcel

/-- Warnings of `parser::binary::error::Warning` that the embedded code can
emit.  `UnexpectedBytesAfterMagic` is the variant used by
`read_fbx_header` (the spec calls it `UnexpectedMarkerBytes`).
`MissingFooterPadding` — Modelled from the spec: the spec's warning
taxonomy lists a `MissingFooterPadding` warning; the error module
(`parser/binary/error.rs`) is not under `src/`, and no code under `src/`
emits such a variant. -/
inductive Warning where
  | UnexpectedBytesAfterMagic (buf : List Nat)
  | MissingFooterPadding
deriving DecidableEq, Repr

/-- Errors of `parser::binary::error::Error` reachable from the embedded
code.  `Io` stands for any `std::io` failure (here: truncated input). -/
inductive Error where
  | Io
  | MagicNotDetected (buf : List Nat)
  | BrokenFbxFooter
  | HeaderFooterVersionMismatch (header footer : Nat)
deriving DecidableEq, Repr

/-- The state of `BinaryParser` that the embedded functions touch: the
position-tracking byte source (`source` with its `count()`), the remembered
FBX version (`fbx_version : Option<u32>`), and the collected warnings
(appended to by `BinaryParser::warn`). -/
structure BinaryParser where
  input : List Nat
  count : Nat
  fbx_version : Option Nat
  warnings : List Warning
deriving DecidableEq, Repr

/-- `BinaryParser::warn`: record a warning. -/
def BinaryParser.warn (p : BinaryParser) (w : Warning) : BinaryParser :=
  { p with warnings := p.warnings ++ [w] }

/-- `CountReader::read_exact` — Modelled from the spec: the
position-tracking byte source is not under `src/`; per the spec it
"advances position by exactly n or fails with a Truncated/IO error". -/
def readExact (n : Nat) (p : BinaryParser) : Option (List Nat × BinaryParser) :=
  if n ≤ p.input.length then
    some (p.input.take n,
      { p with input := p.input.drop n, count := p.count + n })
  else none

/-- Little-endian interpretation of a byte list (least significant byte
first). -/
def leDecode (bs : List Nat) : Nat :=
  bs.foldr (fun b acc => b + 256 * acc) 0

/-- `CountReader::read_u8` — Modelled from the spec: primitive decoders
"read fixed-width little-endian integers" from the position-tracking
source. -/
def readU8 (p : BinaryParser) : Option (Nat × BinaryParser) :=
  (readExact 1 p).map (fun r => (leDecode r.1, r.2))

/-- `CountReader::read_u32` (little-endian) — Modelled from the spec, as
`readU8`. -/
def readU32 (p : BinaryParser) : Option (Nat × BinaryParser) :=
  (readExact 4 p).map (fun r => (leDecode r.1, r.2))

/-- `CountReader::read_u64` (little-endian) — Modelled from the spec, as
`readU8`. -/
def readU64 (p : BinaryParser) : Option (Nat × BinaryParser) :=
  (readExact 8 p).map (fun r => (leDecode r.1, r.2))

/-- FBX header (`FbxHeader`). -/
structure FbxHeader where
  version : Nat
deriving DecidableEq, Repr

/-- The 21 magic bytes `b"Kaydara FBX Binary  \x00"`. -/
def MAGIC : List Nat :=
  [75, 97, 121, 100, 97, 114, 97, 32, 70, 66, 88, 32,
   66, 105, 110, 97, 114, 121, 32, 32, 0]

/-- The expected 2 marker bytes `b"\x1a\x00"`. -/
def UNKNOWN_BYTES : List Nat := [0x1a, 0x00]

/-- `read_fbx_header`.  The leading `assert!(parser.fbx_version.is_none())`
is the panic branch (`none`).  Note the source does not itself store the
version into the parser; its caller does. -/
def read_fbx_header (p : BinaryParser) :
    Option (Except Error (FbxHeader × BinaryParser)) :=
  if p.fbx_version.isSome then none
  else some (
    match readExact 21 p with
    | none => .error .Io
    | some (buf, p) =>
      if buf ≠ MAGIC then .error (.MagicNotDetected buf)
      else
        match readExact 2 p with
        | none => .error .Io
        | some (buf2, p) =>
          let p := if buf2 ≠ UNKNOWN_BYTES
                   then p.warn (.UnexpectedBytesAfterMagic buf2) else p
          match readU32 p with
          | none => .error .Io
          | some (fbx_version, p) => .ok (⟨fbx_version⟩, p))

/-- `expected_padding_len` as computed in `FbxFooter::read_from_parser`:
`(16 - (count & 0x0f)) & 0x0f` (on `u64`; `count & 0x0f ≤ 15`, so the
subtraction never underflows and `Nat` agrees). -/
def expected_padding_len (count : Nat) : Nat :=
  (16 - (count &&& 0x0f)) &&& 0x0f

/-- The trailing-non-zero scan of `FbxFooter::read_from_parser`, on the
reversed buffer: `while (buf[BUF_LEN - 1 - count] != 0) && count <= 16
{ count += 1 }`.  The element at index `count` from the end of `buf` is the
head after dropping `count` elements of `buf.reverse`. -/
def countTrailingNonzeroAux : List Nat → Nat → Nat
  | [], count => count
  | b :: rest, count =>
    if b ≠ 0 ∧ count ≤ 16 then countTrailingNonzeroAux rest (count + 1)
    else count

/-- FBX footer (`FbxFooter`). -/
structure FbxFooter where
  unknown1 : List Nat
  version : Nat
  unknown2 : List Nat
deriving DecidableEq, Repr

/-- The explicit little-endian `u32` reconstruction in
`FbxFooter::read_from_parser`:
`buf[o] | buf[o+1] << 8 | buf[o+2] << 16 | buf[o+3] << 24`, applied to the
4-byte slice starting at the version offset. -/
def decodeVersionLE (bs : List Nat) : Nat :=
  match bs with
  | [a, b, c, d] => a ||| (b <<< 8) ||| (c <<< 16) ||| (d <<< 24)
  | _ => 0

/-- `FbxFooter::read_from_parser`.  The `warn!` in the
`pfooter2_len == 16` branch is a log-crate macro (not
`parser.warn`); it records nothing in the parser, so the two
non-erroring branches of the padding cross-check merge.  The `expect` on
`parser.fbx_version` is the panic branch (`none`). -/
def FbxFooter.readFromParser (p : BinaryParser) :
    Option (Except Error (FbxFooter × BinaryParser)) :=
  match readExact 16 p with
  | none => some (.error .Io)
  | some (unknown1, p) =>
    let epl := expected_padding_len p.count
    match readExact 144 p with
    | none => some (.error .Io)
    | some (buf, p) =>
      let pfooter2_len := countTrailingNonzeroAux buf.reverse 0
      if 16 < pfooter2_len then some (.error .BrokenFbxFooter)
      else
        match readExact (16 - pfooter2_len) p with
        | none => some (.error .Io)
        | some (rest2, p) =>
          let unknown2 := buf.drop (144 - pfooter2_len) ++ rest2
          if ¬(16 - pfooter2_len = epl) ∧ ¬(pfooter2_len = 16)
          then some (.error .BrokenFbxFooter)
          else
            let ver_offset := 20 - pfooter2_len
            let footer_fbx_version :=
              decodeVersionLE ((buf.drop ver_offset).take 4)
            match p.fbx_version with
            | none => none
            | some header_fbx_version =>
              if header_fbx_version ≠ footer_fbx_version then
                some (.error
                  (.HeaderFooterVersionMismatch header_fbx_version
                    footer_fbx_version))
              else
                some (.ok (⟨unknown1, footer_fbx_version, unknown2⟩, p))

/-- Fixed-size node header (`NodeHeader`). -/
structure NodeHeader where
  end_offset : Nat
  num_attributes : Nat
  len_attributes : Nat
  len_name : Nat
deriving DecidableEq, Repr

/-- `NodeHeader::is_node_end`. -/
def NodeHeader.is_node_end (h : NodeHeader) : Bool :=
  h.end_offset == 0 && h.num_attributes == 0 && h.len_attributes == 0 &&
  h.len_name == 0

/-- `NodeHeader::read_from_parser`.  The `expect` on `parser.fbx_version`
is the panic branch (`none`); the IO errors of the primitive reads are
`some (Except.error Error.Io)`. -/
def NodeHeader.readFromParser (p : BinaryParser) :
    Option (Except Error (NodeHeader × BinaryParser)) :=
  match p.fbx_version with
  | none => none
  | some fbx_version =>
    some (
      if fbx_version < 7500 then
        match readU32 p with
        | none => .error .Io
        | some (eo, p) =>
          match readU32 p with
          | none => .error .Io
          | some (na, p) =>
            match readU32 p with
            | none => .error .Io
            | some (la, p) =>
              match readU8 p with
              | none => .error .Io
              | some (len_name, p) => .ok (⟨eo, na, la, len_name⟩, p)
      else
        match readU64 p with
        | none => .error .Io
        | some (eo, p) =>
          match readU64 p with
          | none => .error .Io
          | some (na, p) =>
            match readU64 p with
            | none => .error .Io
            | some (la, p) =>
              match readU8 p with
              | none => .error .Io
              | some (len_name, p) => .ok (⟨eo, na, la, len_name⟩, p))

/-- Attribute type of special value (`SpecialAttributeType`). -/
inductive SpecialAttributeType where
  | Binary
  | String
deriving DecidableEq, Repr

/-- Special type attribute handle (`SpecialAttribute`), minus the borrowed
parser (the parser state is passed alongside explicitly). -/
structure SpecialAttribute where
  value_type : SpecialAttributeType
  byte_length : Nat
  end_offset : Nat
deriving DecidableEq, Repr

/-- `SpecialAttribute::total_len`. -/
def SpecialAttribute.total_len (a : SpecialAttribute) : Nat :=
  a.byte_length

/-- `SpecialAttribute::rest_len`: `end_offset - parser.source.count()`
(`u64` subtraction; wherever it is evaluated in the source the count has
not passed `end_offset`, so `Nat` subtraction agrees). -/
def SpecialAttribute.rest_len (a : SpecialAttribute) (p : BinaryParser) : Nat :=
  a.end_offset - p.count

/-- `read_special_attribute`.  Any tag other than `b'R'`/`b'S'` hits
`unreachable!` (panic, `none`); a truncated length prefix is an IO error.
Like the source, it returns the handle together with `end_offset`, and
consumes only the 4-byte length prefix. -/
def read_special_attribute (p : BinaryParser) (type_code : Nat) :
    Option (Except Error ((SpecialAttribute × Nat) × BinaryParser)) :=
  match readU32 p with
  | none => some (.error .Io)
  | some (byte_length, p) =>
    match type_code with
    | 82 => -- b'R'
      let end_offset := p.count + byte_length
      some (.ok ((⟨.Binary, byte_length, end_offset⟩, end_offset), p))
    | 83 => -- b'S'
      let end_offset := p.count + byte_length
      some (.ok ((⟨.String, byte_length, end_offset⟩, end_offset), p))
    | _ => none

/-- A single `read` call issued through `SpecialAttribute::reader()`: the
returned `io::Take` limits the bytes pulled from the underlying source to
`rest_len()`, so a request for `n` bytes consumes
`min n (min rest_len available)` bytes. -/
def SpecialAttribute.readerRead (a : SpecialAttribute) (p : BinaryParser)
    (n : Nat) : List Nat × BinaryParser :=
  let consumed := min n (min (a.rest_len p) p.input.length)
  (p.input.take consumed,
   { p with input := p.input.drop consumed, count := p.count + consumed })

/-- `SpecialAttribute::into_vec`: `reader().read_to_end(&mut buf)` drains
the `io::Take`, consuming `min rest_len available` bytes from the source
and returning them. -/
def SpecialAttribute.into_vec (a : SpecialAttribute) (p : BinaryParser) :
    List Nat × BinaryParser :=
  a.readerRead p (a.rest_len p)

/-- Byte consumption of `SpecialAttribute::into_string`:
`reader().read_to_string` drains the `io::Take` exactly as
`read_to_end` does (the UTF-8 validation of the drained bytes does not
change what is consumed and is not modelled). -/
def SpecialAttribute.into_string_bytes (a : SpecialAttribute)
    (p : BinaryParser) : List Nat × BinaryParser :=
  a.readerRead p (a.rest_len p)

/-- One consumer operation on an outstanding special-attribute handle. -/
inductive SpOp where
  | viaReader (n : Nat)
  | intoVec
  | intoString
deriving DecidableEq, Repr

/-- Apply one consumer operation to the parser state. -/
def SpecialAttribute.applyOp (a : SpecialAttribute) (p : BinaryParser) :
    SpOp → BinaryParser
  | .viaReader n => (a.readerRead p n).2
  | .intoVec => (a.into_vec p).2
  | .intoString => (a.into_string_bytes p).2

/-- Apply a sequence of consumer operations. -/
def SpecialAttribute.applyOps (a : SpecialAttribute) (p : BinaryParser) :
    List SpOp → BinaryParser
  | [] => p
  | op :: ops => a.applyOps (a.applyOp p op) ops

/-- Loader errors (`loader::binary::simple::Error`) reachable from the
embedded loader code. -/
inductive LoadError where
  | InvalidAttribute (name : String)
deriving DecidableEq, Repr

/-- `separate_name_class` of
`loader/binary/simple/fbx7400/fbx_header_extension.rs`, on the UTF-8 bytes
of the string: `find("\u{0}\u{1}")` returns the byte position of the first
occurrence of the two bytes `0x00 0x01`, and the result slices before and
after it. -/
def findSep : List Nat → Option Nat
  | [] => none
  | a :: rest =>
    if (a :: rest).take 2 = [0, 1] then some 0
    else (findSep rest).map (· + 1)

/-- `separate_name_class`: `Some((&s[0..pos], &s[pos+2..]))` when the
separator occurs at byte position `pos`, `None` otherwise. -/
def separate_name_class (name_class : List Nat) :
    Option (List Nat × List Nat) :=
  (findSep name_class).map
    (fun sep_pos => (name_class.take sep_pos, name_class.drop (sep_pos + 2)))

/-- The attribute prelude of `SceneInfo::load`, with the rest of the body
(the child-node loop, which depends on the abstract `Parser` trait)
abstracted as a continuation `k` applied to the separated name/class: the
source maps a `None` from `separate_name_class` to
`Error::InvalidAttribute("SceneInfo")` before anything else uses the
attributes. -/
def SceneInfo.load_attrs {α : Type}
    (attrs : List Nat × List Nat)
    (k : List Nat → List Nat → Except LoadError α) :
    Except LoadError α :=
  match separate_name_class attrs.1 with
  | none => .error (.InvalidAttribute "SceneInfo")
  | some (name, class_) => k name class_

/-- Concrete 176-byte input whose 144-byte footer buffer ends in 17
non-zero bytes (broken footer). -/
def brokenFooterInput : List Nat :=
  List.replicate 16 0 ++ (List.replicate 127 0 ++ List.replicate 17 1) ++
  List.replicate 16 1

/-- Concrete 176-byte input for a footer without padding: the trailing
non-zero scan finds exactly 16 bytes (version 7400 at buffer offset 4). -/
def noPaddingFooterInput : List Nat :=
  List.replicate 16 0 ++
    (List.replicate 4 0 ++ ([232, 28] ++ (List.replicate 122 0 ++
      List.replicate 16 1))) ++ List.replicate 16 5

/-- Concrete 176-byte input for a correctly padded footer read at cursor
position 2 (14 bytes of padding, version 7400 at buffer offset 18). -/
def paddedFooterInput : List Nat :=
  List.replicate 16 9 ++
    (List.replicate 18 0 ++ ([232, 28, 0, 0] ++ (List.replicate 120 0 ++
      [7, 7]))) ++ (List.replicate 14 8 ++ List.replicate 2 3)

/-! ## Helper lemmas -/

theorem readExact_success (n : Nat) (p : BinaryParser)
    (h : n ≤ p.input.length) :
    readExact n p = some (p.input.take n,
      { p with input := p.input.drop n, count := p.count + n }) := by
  simp [readExact, h]

theorem readU8_success (p : BinaryParser) (h : 1 ≤ p.input.length) :
    readU8 p = some (leDecode (p.input.take 1),
      { p with input := p.input.drop 1, count := p.count + 1 }) := by
  simp [readU8, readExact_success _ _ h]

theorem readU32_success (p : BinaryParser) (h : 4 ≤ p.input.length) :
    readU32 p = some (leDecode (p.input.take 4),
      { p with input := p.input.drop 4, count := p.count + 4 }) := by
  simp [readU32, readExact_success _ _ h]

theorem readU64_success (p : BinaryParser) (h : 8 ≤ p.input.length) :
    readU64 p = some (leDecode (p.input.take 8),
      { p with input := p.input.drop 8, count := p.count + 8 }) := by
  simp [readU64, readExact_success _ _ h]

/-! ## C8 -/

/-- C8: for every cursor position `p` (every `u64`, in particular the
synthetic positions 0–15), the expected padding length computed by
`FbxFooter::read_from_parser` as `(16 - (p & 0x0f)) & 0x0f` equals
`(16 - p % 16) % 16` and always lies between 0 and 15 inclusive. -/
theorem C8_expected_padding_len (p : Nat) :
    expected_padding_len p = (16 - p % 16) % 16 ∧
    expected_padding_len p ≤ 15 := by
  have h15 : ∀ n : Nat, n &&& 15 = n % 16 := fun n => by
    simpa using Nat.and_pow_two_sub_one_eq_mod n 4
  unfold expected_padding_len
  rw [show (0x0f : Nat) = 15 from rfl, h15, h15]
  omega

/-! ## C6 -/

/-- C6: `read_fbx_header` panics exactly when the parser's FBX version is
already set, and `NodeHeader::read_from_parser` panics exactly when it is
not yet set; so if the version is set exactly once before any node header
is decoded, neither panic branch is reachable. -/
theorem C6_version_panics :
    (∀ p : BinaryParser,
      read_fbx_header p = none ↔ p.fbx_version.isSome = true) ∧
    (∀ p : BinaryParser,
      NodeHeader.readFromParser p = none ↔ p.fbx_version = none) := by
  constructor
  · intro p
    by_cases h : p.fbx_version.isSome = true <;> simp [read_fbx_header, h]
  · intro p
    cases h : p.fbx_version <;> simp [NodeHeader.readFromParser, h]

/-! ## C7 -/

/-- C7: for tag byte `S` (83) or `R` (82), `read_special_attribute` reads
one little-endian `u32` byte length and returns — without reading the
payload — a handle whose `end_offset` is the cursor position after the
length prefix plus `byte_length`, whose `total_len()` equals
`byte_length`, and whose `rest_len()` immediately after creation equals
`byte_length`; `S` yields value type `String` and `R` yields `Binary`. -/
theorem C7_read_special_attribute (p : BinaryParser) (tc : Nat)
    (hlen : 4 ≤ p.input.length) (htc : tc = 82 ∨ tc = 83) :
    ∃ a : SpecialAttribute, ∃ p' : BinaryParser,
      read_special_attribute p tc = some (.ok ((a, a.end_offset), p')) ∧
      p' = { p with input := p.input.drop 4, count := p.count + 4 } ∧
      a.byte_length = leDecode (p.input.take 4) ∧
      a.end_offset = p'.count + a.byte_length ∧
      a.total_len = a.byte_length ∧
      a.rest_len p' = a.byte_length ∧
      a.value_type = (if tc = 83 then .String else .Binary) := by
  have hr := readU32_success p hlen
  rcases htc with h | h <;> subst h
  · refine ⟨⟨.Binary, leDecode (p.input.take 4),
        p.count + 4 + leDecode (p.input.take 4)⟩,
      { p with input := p.input.drop 4, count := p.count + 4 },
      ?_, rfl, rfl, rfl, rfl, ?_, ?_⟩
    · simp [read_special_attribute, hr]
    · simp [SpecialAttribute.rest_len]
    · norm_num
  · refine ⟨⟨.String, leDecode (p.input.take 4),
        p.count + 4 + leDecode (p.input.take 4)⟩,
      { p with input := p.input.drop 4, count := p.count + 4 },
      ?_, rfl, rfl, rfl, rfl, ?_, ?_⟩
    · simp [read_special_attribute, hr]
    · simp [SpecialAttribute.rest_len]
    · norm_num

/-- Witness for C7 at a concrete input. -/
theorem C7_witness :
    (4 ≤ (BinaryParser.mk [5, 0, 0, 0, 1, 2, 3] 100 none []).input.length) ∧
    (∃ a : SpecialAttribute, ∃ p' : BinaryParser,
      read_special_attribute (BinaryParser.mk [5, 0, 0, 0, 1, 2, 3] 100 none []) 83 =
        some (.ok ((a, a.end_offset), p')) ∧
      p' = { BinaryParser.mk [5, 0, 0, 0, 1, 2, 3] 100 none [] with
               input := [1, 2, 3], count := 104 } ∧
      a.byte_length = leDecode [5, 0, 0, 0] ∧
      a.end_offset = p'.count + a.byte_length ∧
      a.total_len = a.byte_length ∧
      a.rest_len p' = a.byte_length ∧
      a.value_type = (if 83 = 83 then .String else .Binary)) := by
  refine ⟨by decide, ?_⟩
  have h := C7_read_special_attribute
    (BinaryParser.mk [5, 0, 0, 0, 1, 2, 3] 100 none []) 83
    (by decide) (Or.inr rfl)
  simpa using h

/-! ## C9 -/

theorem applyOp_count (a : SpecialAttribute) (p : BinaryParser)
    (op : SpOp) :
    (a.applyOp p op).count = p.count +
      (match op with
       | .viaReader n => min n (min (a.rest_len p) p.input.length)
       | .intoVec => min (a.rest_len p) (min (a.rest_len p) p.input.length)
       | .intoString =>
           min (a.rest_len p) (min (a.rest_len p) p.input.length)) := by
  cases op <;>
    simp [SpecialAttribute.applyOp, SpecialAttribute.readerRead,
      SpecialAttribute.into_vec, SpecialAttribute.into_string_bytes]

theorem applyOp_count_le (a : SpecialAttribute) (p : BinaryParser)
    (op : SpOp) (h : p.count ≤ a.end_offset) :
    p.count ≤ (a.applyOp p op).count ∧
    (a.applyOp p op).count ≤ a.end_offset := by
  rw [applyOp_count]
  unfold SpecialAttribute.rest_len
  cases op <;> simp <;> omega

theorem applyOps_count_le (a : SpecialAttribute) (ops : List SpOp) :
    ∀ p : BinaryParser, p.count ≤ a.end_offset →
      p.count ≤ (a.applyOps p ops).count ∧
      (a.applyOps p ops).count ≤ a.end_offset := by
  induction ops with
  | nil => intro p h; exact ⟨Nat.le_refl _, h⟩
  | cons op ops ih =>
    intro p h
    have h1 := applyOp_count_le a p op h
    have h2 := ih (a.applyOp p op) h1.2
    exact ⟨Nat.le_trans h1.1 h2.1, h2.2⟩

/-- C9: for every special-attribute handle and every sequence of reads
through `reader()`, `into_vec()`, or `into_string()`, at most
`rest_len() = end_offset - count` bytes are consumed from the underlying
source, so the cursor never advances past the handle's `end_offset` even
when the underlying stream holds more bytes; in particular `into_vec`
returns a vector of length at most `rest_len()`. -/
theorem C9_special_attribute_confined (a : SpecialAttribute)
    (p : BinaryParser) (ops : List SpOp) (h : p.count ≤ a.end_offset) :
    (a.applyOps p ops).count ≤ a.end_offset ∧
    (a.applyOps p ops).count - p.count ≤ a.rest_len p ∧
    (a.into_vec p).1.length ≤ a.rest_len p := by
  have h1 := applyOps_count_le a ops p h
  refine ⟨h1.2, ?_, ?_⟩
  · unfold SpecialAttribute.rest_len
    omega
  · simp only [SpecialAttribute.into_vec, SpecialAttribute.readerRead,
      List.length_take]
    omega

/-- Witness for C9 at a concrete input. -/
theorem C9_witness :
    ((BinaryParser.mk [1, 2, 3, 4, 5] 10 none []).count ≤
      (SpecialAttribute.mk .Binary 3 12).end_offset) ∧
    (((SpecialAttribute.mk .Binary 3 12).applyOps
        (BinaryParser.mk [1, 2, 3, 4, 5] 10 none [])
        [.viaReader 1, .intoVec]).count ≤
      (SpecialAttribute.mk .Binary 3 12).end_offset ∧
    ((SpecialAttribute.mk .Binary 3 12).applyOps
        (BinaryParser.mk [1, 2, 3, 4, 5] 10 none [])
        [.viaReader 1, .intoVec]).count -
        (BinaryParser.mk [1, 2, 3, 4, 5] 10 none []).count ≤
      (SpecialAttribute.mk .Binary 3 12).rest_len
        (BinaryParser.mk [1, 2, 3, 4, 5] 10 none []) ∧
    ((SpecialAttribute.mk .Binary 3 12).into_vec
        (BinaryParser.mk [1, 2, 3, 4, 5] 10 none [])).1.length ≤
      (SpecialAttribute.mk .Binary 3 12).rest_len
        (BinaryParser.mk [1, 2, 3, 4, 5] 10 none [])) :=
  ⟨by decide,
   C9_special_attribute_confined (SpecialAttribute.mk .Binary 3 12)
     (BinaryParser.mk [1, 2, 3, 4, 5] 10 none [])
     [.viaReader 1, .intoVec] (by decide)⟩

/-! ## C5 -/

/-- C5: `read_fbx_header` fails with a magic-mismatch error if and only if
the first 21 bytes differ from `"Kaydara FBX Binary  \x00"`; when the
magic matches but the next 2 bytes differ from `\x1a\x00`, exactly one
`UnexpectedBytesAfterMagic` warning (the spec's `UnexpectedMarkerBytes`)
is collected, no error is raised, and the function still returns a header
whose version is the following little-endian `u32`. -/
theorem C5_read_fbx_header (p : BinaryParser)
    (hv : p.fbx_version = none) (hlen : 27 ≤ p.input.length) :
    (read_fbx_header p =
        some (.error (.MagicNotDetected (p.input.take 21))) ↔
      p.input.take 21 ≠ MAGIC) ∧
    (p.input.take 21 = MAGIC → (p.input.drop 21).take 2 ≠ UNKNOWN_BYTES →
      read_fbx_header p = some (.ok (⟨leDecode ((p.input.drop 23).take 4)⟩,
        { input := p.input.drop 27, count := p.count + 27,
          fbx_version := none,
          warnings := p.warnings ++
            [.UnexpectedBytesAfterMagic ((p.input.drop 21).take 2)] }))) := by
  obtain ⟨input, count, fbxv, warns⟩ := p
  dsimp only at hv hlen ⊢
  subst hv
  have e1 := readExact_success 21 ⟨input, count, none, warns⟩
    (by dsimp only; omega)
  dsimp only at e1
  have e2 := readExact_success 2 ⟨input.drop 21, count + 21, none, warns⟩
    (by simp; omega)
  dsimp only at e2
  by_cases hm : input.take 21 = MAGIC
  case neg =>
    have hres : read_fbx_header ⟨input, count, none, warns⟩ =
        some (.error (.MagicNotDetected (input.take 21))) := by
      simp only [read_fbx_header]
      dsimp only [Option.isSome]
      rw [if_neg (by simp), e1]
      dsimp only
      rw [if_pos (by simpa using hm)]
    exact ⟨by simp [hres, hm], fun h => absurd h hm⟩
  case pos =>
    by_cases hu : (input.drop 21).take 2 = UNKNOWN_BYTES
    · have e3 := readU32_success
        ⟨(input.drop 21).drop 2, count + 21 + 2, none, warns⟩
        (by simp; omega)
      dsimp only at e3
      have hres : read_fbx_header ⟨input, count, none, warns⟩ =
          some (.ok (⟨leDecode ((input.drop 23).take 4)⟩,
            ⟨input.drop 27, count + 27, none, warns⟩)) := by
        simp only [read_fbx_header]
        dsimp only [Option.isSome]
        rw [if_neg (by simp), e1]
        dsimp only
        rw [if_neg (by simpa using hm), e2]
        dsimp only
        rw [if_neg (by simpa using hu), e3]
        dsimp only
        simp [List.drop_drop, Nat.add_assoc]
      refine ⟨?_, fun _ hu' => absurd hu hu'⟩
      rw [hres]
      simp [hm]
    · have e3 := readU32_success
        ⟨(input.drop 21).drop 2, count + 21 + 2, none,
          warns ++ [.UnexpectedBytesAfterMagic ((input.drop 21).take 2)]⟩
        (by simp; omega)
      dsimp only at e3
      have hres : read_fbx_header ⟨input, count, none, warns⟩ =
          some (.ok (⟨leDecode ((input.drop 23).take 4)⟩,
            ⟨input.drop 27, count + 27, none,
              warns ++
                [.UnexpectedBytesAfterMagic ((input.drop 21).take 2)]⟩)) := by
        simp only [read_fbx_header]
        dsimp only [Option.isSome]
        rw [if_neg (by simp), e1]
        dsimp only
        rw [if_neg (by simpa using hm), e2]
        dsimp only
        rw [if_pos (by simpa using hu)]
        simp only [BinaryParser.warn]
        rw [e3]
        dsimp only
        simp [List.drop_drop, Nat.add_assoc]
      constructor
      · rw [hres]; simp [hm]
      · intro _ _
        rw [hres]

/-- Witness for C5 at a concrete input (magic correct, marker bytes
`\x00\x00`, version 7400). -/
theorem C5_witness :
    ((BinaryParser.mk (MAGIC ++ [0, 0] ++ [232, 28, 0, 0]) 0 none
        []).fbx_version = none) ∧
    (read_fbx_header
        (BinaryParser.mk (MAGIC ++ [0, 0] ++ [232, 28, 0, 0]) 0 none []) =
      some (.ok (⟨7400⟩,
        { input := [], count := 27, fbx_version := none,
          warnings := [.UnexpectedBytesAfterMagic [0, 0]] }))) := by
  refine ⟨rfl, ?_⟩
  have h := (C5_read_fbx_header
    (BinaryParser.mk (MAGIC ++ [0, 0] ++ [232, 28, 0, 0]) 0 none [])
    rfl (by decide)).2 (by decide) (by decide)
  simpa using h

/-! ## C3 -/

/-- C3: for every document version `v` recorded in the parser,
`NodeHeader::read_from_parser` reads `end_offset`, `num_attributes` and
`len_attributes` as three little-endian `u32` values (widened to `u64`)
when `v < 7500` and as three little-endian `u64` values otherwise, then
one `u8` name length; and the resulting header satisfies `is_node_end`
exactly when all four fields are zero. -/
theorem C3_node_header (p : BinaryParser) (v : Nat)
    (hv : p.fbx_version = some v) :
    (v < 7500 → 13 ≤ p.input.length →
      NodeHeader.readFromParser p = some (.ok
        (⟨leDecode (p.input.take 4), leDecode ((p.input.drop 4).take 4),
          leDecode ((p.input.drop 8).take 4),
          leDecode ((p.input.drop 12).take 1)⟩,
         { p with input := p.input.drop 13, count := p.count + 13 }))) ∧
    (7500 ≤ v → 25 ≤ p.input.length →
      NodeHeader.readFromParser p = some (.ok
        (⟨leDecode (p.input.take 8), leDecode ((p.input.drop 8).take 8),
          leDecode ((p.input.drop 16).take 8),
          leDecode ((p.input.drop 24).take 1)⟩,
         { p with input := p.input.drop 25, count := p.count + 25 }))) ∧
    (∀ h : NodeHeader, h.is_node_end = true ↔
      h.end_offset = 0 ∧ h.num_attributes = 0 ∧ h.len_attributes = 0 ∧
      h.len_name = 0) := by
  refine ⟨?_, ?_, ?_⟩
  · intro hlt hlen
    obtain ⟨input, count, fbxv, warns⟩ := p
    dsimp only at hv hlen ⊢
    subst hv
    have e1 := readU32_success ⟨input, count, some v, warns⟩
      (by dsimp only; omega)
    dsimp only at e1
    have e2 := readU32_success ⟨input.drop 4, count + 4, some v, warns⟩
      (by simp; omega)
    dsimp only at e2
    have e3 := readU32_success
      ⟨(input.drop 4).drop 4, count + 4 + 4, some v, warns⟩
      (by simp; omega)
    dsimp only at e3
    have e4 := readU8_success
      ⟨((input.drop 4).drop 4).drop 4, count + 4 + 4 + 4, some v, warns⟩
      (by simp; omega)
    dsimp only at e4
    simp only [NodeHeader.readFromParser]
    rw [if_pos hlt, e1]
    dsimp only
    rw [e2]
    dsimp only
    rw [e3]
    dsimp only
    rw [e4]
    dsimp only
    simp [List.drop_drop, Nat.add_assoc]
  · intro hge hlen
    obtain ⟨input, count, fbxv, warns⟩ := p
    dsimp only at hv hlen ⊢
    subst hv
    have e1 := readU64_success ⟨input, count, some v, warns⟩
      (by dsimp only; omega)
    dsimp only at e1
    have e2 := readU64_success ⟨input.drop 8, count + 8, some v, warns⟩
      (by simp; omega)
    dsimp only at e2
    have e3 := readU64_success
      ⟨(input.drop 8).drop 8, count + 8 + 8, some v, warns⟩
      (by simp; omega)
    dsimp only at e3
    have e4 := readU8_success
      ⟨((input.drop 8).drop 8).drop 8, count + 8 + 8 + 8, some v, warns⟩
      (by simp; omega)
    dsimp only at e4
    simp only [NodeHeader.readFromParser]
    rw [if_neg (by omega : ¬v < 7500), e1]
    dsimp only
    rw [e2]
    dsimp only
    rw [e3]
    dsimp only
    rw [e4]
    dsimp only
    simp [List.drop_drop, Nat.add_assoc]
  · intro h
    simp [NodeHeader.is_node_end, and_assoc]

/-- Witness for C3 at a concrete input (version 7400, node header
`end_offset = 1`, `num_attributes = 2`, `len_attributes = 3`,
`len_name = 4`). -/
theorem C3_witness :
    ((BinaryParser.mk
        [1, 0, 0, 0, 2, 0, 0, 0, 3, 0, 0, 0, 4] 0 (some 7400)
        []).fbx_version = some 7400) ∧
    (NodeHeader.readFromParser
        (BinaryParser.mk [1, 0, 0, 0, 2, 0, 0, 0, 3, 0, 0, 0, 4] 0
          (some 7400) []) =
      some (.ok (⟨1, 2, 3, 4⟩,
        { input := [], count := 13, fbx_version := some 7400,
          warnings := [] }))) := by
  refine ⟨rfl, ?_⟩
  have h := (C3_node_header
    (BinaryParser.mk [1, 0, 0, 0, 2, 0, 0, 0, 3, 0, 0, 0, 4] 0
      (some 7400) []) 7400 rfl).1 (by decide) (by decide)
  simpa using h

/-! ## Footer helper lemmas -/

theorem countTrailingNonzeroAux_gt16 (l : List Nat) :
    ∀ c : Nat, c ≤ 17 →
      (16 < countTrailingNonzeroAux l c ↔
        16 < c ∨ (17 - c ≤ l.length ∧ ∀ b ∈ l.take (17 - c), b ≠ 0)) := by
  induction l with
  | nil =>
    intro c hc
    simp only [countTrailingNonzeroAux, List.length_nil, List.take_nil,
      List.not_mem_nil, ne_eq, false_implies, implies_true, and_true]
    omega
  | cons b rest ih =>
    intro c hc
    rw [countTrailingNonzeroAux]
    by_cases hb : b ≠ 0 ∧ c ≤ 16
    case pos =>
      rw [if_pos hb, ih (c + 1) (by omega)]
      have h17 : 17 - c = (16 - c) + 1 := by omega
      have h16 : 17 - (c + 1) = 16 - c := by omega
      rw [h17, h16, List.take_succ_cons]
      simp only [List.length_cons, List.mem_cons]
      constructor
      · rintro (h | ⟨h1, h2⟩)
        · right
          have hceq : c = 16 := by omega
          subst hceq
          refine ⟨by omega, ?_⟩
          rintro x (rfl | hx)
          · exact hb.1
          · simp at hx
        · right
          refine ⟨by omega, ?_⟩
          rintro x (rfl | hx)
          · exact hb.1
          · exact h2 x hx
      · rintro (h | ⟨h1, h2⟩)
        · exact absurd h (by omega)
        · by_cases hc16 : c = 16
          · left; omega
          · right
            exact ⟨by omega, fun x hx => h2 x (Or.inr hx)⟩
    case neg =>
      rw [if_neg hb]
      push_neg at hb
      constructor
      · exact Or.inl
      · rintro (h | ⟨h1, h2⟩)
        · exact h
        · by_contra hc16
          have hb0 : b = 0 := by
            by_cases hb' : b = 0
            · exact hb'
            · exact absurd (hb hb') (by omega)
          have hmem : b ∈ (b :: rest).take (17 - c) := by
            have he : 17 - c = (16 - c) + 1 := by omega
            rw [he, List.take_succ_cons]
            exact List.mem_cons_self b _
          exact h2 b hmem hb0

theorem trailing_gt16_iff (buf : List Nat) (hlen : buf.length = 144) :
    16 < countTrailingNonzeroAux buf.reverse 0 ↔
      ∀ b ∈ buf.drop 127, b ≠ 0 := by
  rw [countTrailingNonzeroAux_gt16 buf.reverse 0 (by omega)]
  have h1 : ¬(16 < 0) := by omega
  have h2 : 17 - 0 ≤ buf.reverse.length := by simp [hlen]
  simp only [h1, false_or, h2, true_and, Nat.sub_zero]
  have h3 : buf.drop 127 = (buf.reverse.take 17).reverse := by
    have := List.rtake_eq_reverse_take_reverse (l := buf) (n := 17)
    rw [List.rtake, hlen] at this
    norm_num at this
    exact this
  rw [h3]
  constructor
  · intro h x hx
    exact h x (List.mem_reverse.mp hx)
  · intro h x hx
    exact h x (List.mem_reverse.mpr hx)

theorem list_length_four (l : List Nat) (h : l.length = 4) :
    ∃ a b c d : Nat, l = [a, b, c, d] := by
  rcases l with _ | ⟨a, l⟩
  · exact absurd h (by simp)
  rcases l with _ | ⟨b, l⟩
  · exact absurd h (by simp)
  rcases l with _ | ⟨c, l⟩
  · exact absurd h (by simp)
  rcases l with _ | ⟨d, l⟩
  · exact absurd h (by simp)
  rcases l with _ | ⟨e, l⟩
  · exact ⟨a, b, c, d, rfl⟩
  · refine absurd h (by simp)

theorem decodeVersionLE_eq_leDecode (a b c d : Nat)
    (ha : a < 256) (hb : b < 256) (hc : c < 256) (hd : d < 256) :
    decodeVersionLE [a, b, c, d] = leDecode [a, b, c, d] := by
  have key : ∀ i x y : Nat, y < 2 ^ i → y ||| (x <<< i) = 2 ^ i * x + y := by
    intro i x y hy
    rw [Nat.shiftLeft_eq, Nat.or_comm, mul_comm]
    exact (Nat.mul_add_lt_is_or hy x).symm
  show a ||| (b <<< 8) ||| (c <<< 16) ||| (d <<< 24) = _
  rw [key 8 b a (by omega)]
  rw [key 16 c (2 ^ 8 * b + a) (by norm_num; omega)]
  rw [key 24 d (2 ^ 16 * c + (2 ^ 8 * b + a)) (by norm_num; omega)]
  simp only [leDecode, List.foldr]
  ring

theorem footer_unfold (p : BinaryParser) (buf : List Nat) (pf epl fv : Nat)
    (hlen : 176 ≤ p.input.length)
    (hbuf : buf = (p.input.drop 16).take 144)
    (hpf : pf = countTrailingNonzeroAux buf.reverse 0)
    (hepl : epl = expected_padding_len (p.count + 16))
    (hfv : fv = decodeVersionLE ((buf.drop (20 - pf)).take 4)) :
    FbxFooter.readFromParser p =
      if 16 < pf then some (.error .BrokenFbxFooter)
      else if ¬(16 - pf = epl) ∧ ¬(pf = 16) then
        some (.error .BrokenFbxFooter)
      else
        match p.fbx_version with
        | none => none
        | some hv =>
          if hv ≠ fv then
            some (.error (.HeaderFooterVersionMismatch hv fv))
          else
            some (.ok (⟨p.input.take 16, fv,
                buf.drop (144 - pf) ++
                  ((p.input.drop 16).drop 144).take (16 - pf)⟩,
              ⟨((p.input.drop 16).drop 144).drop (16 - pf),
               p.count + 16 + 144 + (16 - pf), p.fbx_version,
               p.warnings⟩)) := by
  obtain ⟨input, count, fbxv, warns⟩ := p
  dsimp only at hlen hbuf hepl hfv ⊢
  subst hbuf
  subst hpf
  subst hepl
  subst hfv
  have e1 := readExact_success 16 ⟨input, count, fbxv, warns⟩
    (by dsimp only; omega)
  dsimp only at e1
  have e2 := readExact_success 144 ⟨input.drop 16, count + 16, fbxv, warns⟩
    (by simp; omega)
  dsimp only at e2
  have e3 := readExact_success
    (16 - countTrailingNonzeroAux ((input.drop 16).take 144).reverse 0)
    ⟨(input.drop 16).drop 144, count + 16 + 144, fbxv, warns⟩
    (by simp; omega)
  dsimp only at e3
  simp only [FbxFooter.readFromParser]
  rw [e1]
  dsimp only
  rw [e2]
  dsimp only
  by_cases h16 :
      16 < countTrailingNonzeroAux ((input.drop 16).take 144).reverse 0
  · rw [if_pos h16, if_pos h16]
  · rw [if_neg h16, if_neg h16, e3]

/-! ## C10 -/

theorem findSep_none_iff (s : List Nat) :
    findSep s = none ↔ ∀ t u : List Nat, s ≠ t ++ 0 :: 1 :: u := by
  induction s with
  | nil =>
    constructor
    · intro _ t u h
      have := congrArg List.length h
      simp at this
      omega
    · intro _
      rfl
  | cons a rest ih =>
    by_cases hsep : (a :: rest).take 2 = [0, 1]
    · rcases rest with _ | ⟨b, rest'⟩
      · simp at hsep
      · simp at hsep
        obtain ⟨rfl, rfl⟩ := hsep
        constructor
        · intro hcontra
          simp [findSep] at hcontra
        · intro h
          exact absurd (rfl : (0 : Nat) :: 1 :: rest' = [] ++ 0 :: 1 :: rest')
            (h [] rest')
    · rw [findSep, if_neg hsep, Option.map_eq_none', ih]
      constructor
      · intro h t u heq
        rcases t with _ | ⟨b, t'⟩
        · simp only [List.nil_append] at heq
          apply hsep
          rw [heq]
          rfl
        · simp only [List.cons_append, List.cons.injEq] at heq
          exact h t' u heq.2
      · intro h t u heq
        exact h (a :: t) u (by simp [heq])

theorem findSep_some_spec (s : List Nat) :
    ∀ i : Nat, findSep s = some i →
      s = s.take i ++ 0 :: 1 :: s.drop (i + 2) ∧
      ∀ t u : List Nat, s = t ++ 0 :: 1 :: u → i ≤ t.length := by
  induction s with
  | nil => intro i h; simp [findSep] at h
  | cons a rest ih =>
    intro i h
    by_cases hsep : (a :: rest).take 2 = [0, 1]
    · rw [findSep, if_pos hsep] at h
      cases h
      rcases rest with _ | ⟨b, rest'⟩
      · simp at hsep
      · simp at hsep
        obtain ⟨rfl, rfl⟩ := hsep
        exact ⟨rfl, fun t u heq => Nat.zero_le _⟩
    · rw [findSep, if_neg hsep] at h
      rcases Option.map_eq_some'.mp h with ⟨j, hj, hij⟩
      rcases ih j hj with ⟨hdec, hmin⟩
      subst hij
      constructor
      · conv_lhs => rw [hdec]
        simp [List.take_succ_cons, List.drop_succ_cons]
      · intro t u heq
        rcases t with _ | ⟨b, t'⟩
        · exfalso
          apply hsep
          simp only [List.nil_append] at heq
          rw [heq]
          rfl
        · simp only [List.cons_append, List.cons.injEq] at heq
          have := hmin t' u heq.2
          simp
          omega

/-- C10: `separate_name_class s` returns `some (name, class)` if and only
if `s` contains the two-byte separator `"\u{0}\u{1}"` (bytes `0x00 0x01`),
in which case `name` is the prefix of `s` before the first occurrence of
the separator and `class` is the suffix after it; consequently
`SceneInfo::load` fails with `InvalidAttribute("SceneInfo")` whenever the
name-class attribute string lacks that separator. -/
theorem C10_separate_name_class (s : List Nat) :
    ((separate_name_class s).isSome = true ↔
      ∃ t u : List Nat, s = t ++ 0 :: 1 :: u) ∧
    (∀ n c : List Nat, separate_name_class s = some (n, c) →
      s = n ++ 0 :: 1 :: c ∧
      ∀ t u : List Nat, s = t ++ 0 :: 1 :: u → n.length ≤ t.length) ∧
    (∀ (α : Type) (attrs : List Nat × List Nat)
        (k : List Nat → List Nat → Except LoadError α),
      separate_name_class attrs.1 = none →
      SceneInfo.load_attrs attrs k = .error (.InvalidAttribute "SceneInfo")) := by
  refine ⟨?_, ?_, ?_⟩
  · constructor
    · intro h
      rcases Option.isSome_iff_exists.mp h with ⟨⟨n, c⟩, hnc⟩
      rcases Option.map_eq_some.mp hnc with ⟨i, hi, hpair⟩
      have := (findSep_some_spec s i hi).1
      exact ⟨s.take i, s.drop (i + 2), this⟩
    · rintro ⟨t, u, rfl⟩
      rcases h : findSep (t ++ 0 :: 1 :: u) with _ | i
      · rw [findSep_none_iff] at h
        exact absurd rfl (h t u)
      · simp [separate_name_class, h]
  · intro n c hnc
    rcases Option.map_eq_some.mp hnc with ⟨i, hi, hpair⟩
    rcases findSep_some_spec s i hi with ⟨hdec, hmin⟩
    simp only [Prod.mk.injEq] at hpair
    constructor
    · rw [← hpair.1, ← hpair.2]
      exact hdec
    · intro t u heq
      have hle := hmin t u heq
      rw [← hpair.1]
      simp
      omega
  · intro α attrs k h
    simp [SceneInfo.load_attrs, h]

/-- Witness for C10 at concrete inputs: `[104, 0, 1, 99]` separates into
`[104]` and `[99]`, and `SceneInfo::load` on a separator-free name-class
attribute `[104, 105]` fails with `InvalidAttribute("SceneInfo")`. -/
theorem C10_witness :
    (([104, 0, 1, 99] : List Nat) = [104] ++ 0 :: 1 :: [99] ∧
      ∀ t u : List Nat, ([104, 0, 1, 99] : List Nat) = t ++ 0 :: 1 :: u →
        ([104] : List Nat).length ≤ t.length) ∧
    (@SceneInfo.load_attrs Unit ([104, 105], [])
        (fun _ _ => Except.ok ()) =
      .error (.InvalidAttribute "SceneInfo")) :=
  ⟨(C10_separate_name_class [104, 0, 1, 99]).2.1 [104] [99] (by decide),
   (C10_separate_name_class [104, 105]).2.2 Unit ([104, 105], [])
     (fun _ _ => Except.ok ()) (by decide)⟩

/-! ## C1 -/

/-- C1: `FbxFooter::read_from_parser` fails with `BrokenFbxFooter` in
exactly two cases: (1) the trailing non-zero scan of the 144-byte buffer
counts more than 16 non-zero bytes — equivalently, the buffer's last 17
bytes are all non-zero — and (2) the scan yields `partial_len ≤ 16` but
neither `16 - partial_len = expected_padding_len` nor `partial_len = 16`
holds; in every other case the padding check passes and decoding
continues (to the version cross-check). -/
theorem C1_footer_broken (p : BinaryParser) (hv : Nat) (buf : List Nat)
    (pf epl : Nat)
    (hfbx : p.fbx_version = some hv) (hlen : 176 ≤ p.input.length)
    (hbuf : buf = (p.input.drop 16).take 144)
    (hpf : pf = countTrailingNonzeroAux buf.reverse 0)
    (hepl : epl = expected_padding_len (p.count + 16)) :
    (FbxFooter.readFromParser p = some (.error .BrokenFbxFooter) ↔
      16 < pf ∨ (pf ≤ 16 ∧ ¬(16 - pf = epl) ∧ ¬(pf = 16))) ∧
    (16 < pf ↔ ∀ b ∈ buf.drop 127, b ≠ 0) ∧
    (¬(16 < pf ∨ (pf ≤ 16 ∧ ¬(16 - pf = epl) ∧ ¬(pf = 16))) →
      (∃ fv, FbxFooter.readFromParser p =
        some (.error (.HeaderFooterVersionMismatch hv fv))) ∨
      (∃ f p', FbxFooter.readFromParser p = some (.ok (f, p')))) := by
  have hu := footer_unfold p buf pf epl
    (decodeVersionLE ((buf.drop (20 - pf)).take 4)) hlen hbuf hpf hepl rfl
  have hblen : buf.length = 144 := by
    rw [hbuf]
    simp
    omega
  refine ⟨?_, ?_, ?_⟩
  · rw [hu]
    by_cases h16 : 16 < pf
    · simp [h16]
    · rw [if_neg h16]
      by_cases hpad : ¬(16 - pf = epl) ∧ ¬(pf = 16)
      · rw [if_pos hpad]
        simp only [true_iff]
        right
        exact ⟨by omega, hpad⟩
      · rw [if_neg hpad, hfbx]
        dsimp only
        by_cases hne : hv ≠ decodeVersionLE ((buf.drop (20 - pf)).take 4)
        · rw [if_pos hne]
          constructor
          · intro h
            exact absurd h (by simp)
          · intro h
            exact absurd h (by omega)
        · rw [if_neg hne]
          constructor
          · intro h
            exact absurd h (by simp)
          · intro h
            exact absurd h (by omega)
  · rw [hpf]
    exact trailing_gt16_iff buf hblen
  · intro hng
    rw [hu, if_neg (by omega), if_neg (by omega), hfbx]
    dsimp only
    by_cases hne : hv ≠ decodeVersionLE ((buf.drop (20 - pf)).take 4)
    · rw [if_pos hne]
      exact Or.inl ⟨_, rfl⟩
    · rw [if_neg hne]
      exact Or.inr ⟨_, _, rfl⟩

/-- Witness for C1 at a concrete input whose footer buffer ends in 17
non-zero bytes. -/
theorem C1_witness :
    ((BinaryParser.mk brokenFooterInput 0 (some 7400) []).fbx_version =
      some 7400) ∧
    176 ≤ (BinaryParser.mk brokenFooterInput 0 (some 7400)
      []).input.length ∧
    ((FbxFooter.readFromParser
        (BinaryParser.mk brokenFooterInput 0 (some 7400) []) =
          some (.error .BrokenFbxFooter) ↔
        16 < 17 ∨ (17 ≤ 16 ∧ ¬(16 - 17 = 0) ∧ ¬(17 = 16))) ∧
      (16 < 17 ↔
        ∀ b ∈ (List.replicate 127 0 ++ List.replicate 17 1).drop 127,
          b ≠ 0) ∧
      (¬(16 < 17 ∨ (17 ≤ 16 ∧ ¬(16 - 17 = 0) ∧ ¬(17 = 16))) →
        (∃ fv, FbxFooter.readFromParser
            (BinaryParser.mk brokenFooterInput 0 (some 7400) []) =
          some (.error (.HeaderFooterVersionMismatch 7400 fv))) ∨
        (∃ f p', FbxFooter.readFromParser
            (BinaryParser.mk brokenFooterInput 0 (some 7400) []) =
          some (.ok (f, p'))))) := by
  refine ⟨rfl, by decide, ?_⟩
  exact C1_footer_broken (BinaryParser.mk brokenFooterInput 0 (some 7400) [])
    7400 (List.replicate 127 0 ++ List.replicate 17 1) 17 0
    rfl (by decide) (by decide) (by decide) (by decide)

/-! ## C2 -/

/-- C2 counterexample: at a concrete input read at cursor position 1
(`expected_padding_len = 15`, non-zero), the trailing non-zero scan finds
`partial_len = 16` (padding absent when expected), yet the footer read
succeeds with the parser's collected warnings left empty — no
`MissingFooterPadding` warning is recorded in the parser; the source only
emits a `warn!` log line. -/
theorem C2_counterexample :
    countTrailingNonzeroAux
        ((((BinaryParser.mk noPaddingFooterInput 1 (some 7400)
          []).input.drop 16).take 144).reverse) 0 = 16 ∧
    expected_padding_len ((BinaryParser.mk noPaddingFooterInput 1
      (some 7400) []).count + 16) = 15 ∧
    FbxFooter.readFromParser
        (BinaryParser.mk noPaddingFooterInput 1 (some 7400) []) =
      some (.ok (⟨List.replicate 16 0, 7400, List.replicate 16 1⟩,
        ⟨List.replicate 16 5, 161, some 7400, []⟩)) := by
  refine ⟨by decide, by decide, by rfl⟩

/-- C2 (amended): whenever `FbxFooter::read_from_parser` finds
`partial_len = 16` (footer padding absent when expected), the footer read
continues without a `BrokenFbxFooter` error, but nothing is recorded in
the parser's collected warnings: on success the warning list is exactly
the one the parser already had (the missing padding is only reported
through the `warn!` log macro). -/
theorem C2_no_padding_only_logs (p : BinaryParser) (hv : Nat)
    (buf : List Nat) (pf : Nat)
    (hfbx : p.fbx_version = some hv) (hlen : 176 ≤ p.input.length)
    (hbuf : buf = (p.input.drop 16).take 144)
    (hpf : pf = countTrailingNonzeroAux buf.reverse 0)
    (hp16 : pf = 16) :
    FbxFooter.readFromParser p ≠ some (.error .BrokenFbxFooter) ∧
    ∀ f p', FbxFooter.readFromParser p = some (.ok (f, p')) →
      p'.warnings = p.warnings := by
  have hu := footer_unfold p buf pf (expected_padding_len (p.count + 16))
    (decodeVersionLE ((buf.drop (20 - pf)).take 4)) hlen hbuf hpf rfl rfl
  constructor
  · rw [hu, if_neg (by omega), if_neg (by simp [hp16]), hfbx]
    dsimp only
    by_cases hne : hv ≠ decodeVersionLE ((buf.drop (20 - pf)).take 4)
    · rw [if_pos hne]
      simp
    · rw [if_neg hne]
      simp
  · intro f p' hok
    rw [hu, if_neg (by omega), if_neg (by simp [hp16]), hfbx] at hok
    dsimp only at hok
    by_cases hne : hv ≠ decodeVersionLE ((buf.drop (20 - pf)).take 4)
    · rw [if_pos hne] at hok
      simp at hok
    · rw [if_neg hne] at hok
      simp only [Option.some.injEq, Except.ok.injEq, Prod.mk.injEq] at hok
      rw [← hok.2]

/-- Witness for the amended C2 at a concrete input. -/
theorem C2_witness :
    ((BinaryParser.mk noPaddingFooterInput 1 (some 7400) []).fbx_version =
      some 7400) ∧
    (FbxFooter.readFromParser
        (BinaryParser.mk noPaddingFooterInput 1 (some 7400) []) ≠
      some (.error .BrokenFbxFooter) ∧
    ∀ f p', FbxFooter.readFromParser
        (BinaryParser.mk noPaddingFooterInput 1 (some 7400) []) =
        some (.ok (f, p')) →
      p'.warnings = (BinaryParser.mk noPaddingFooterInput 1 (some 7400)
        []).warnings) := by
  refine ⟨rfl, ?_⟩
  exact C2_no_padding_only_logs
    (BinaryParser.mk noPaddingFooterInput 1 (some 7400) []) 7400
    (List.replicate 4 0 ++ ([232, 28] ++ (List.replicate 122 0 ++
      List.replicate 16 1))) 16
    rfl (by decide) (by decide) (by decide) rfl

/-! ## C4 -/

/-- C4: when the footer buffer scan yields `partial_len ≤ 16` and the
padding cross-check passes, `FbxFooter::read_from_parser` decodes a
little-endian `u32` at buffer offset `20 - partial_len` and fails with
`HeaderFooterVersionMismatch` if and only if that value differs from the
version recorded from the header; on success the returned footer's
`version` field equals that decoded value (and for genuine byte input the
decoded value is the standard little-endian interpretation of the 4-byte
slice). -/
theorem C4_footer_version (p : BinaryParser) (hv : Nat) (buf : List Nat)
    (pf epl fv : Nat)
    (hfbx : p.fbx_version = some hv) (hlen : 176 ≤ p.input.length)
    (hbuf : buf = (p.input.drop 16).take 144)
    (hpf : pf = countTrailingNonzeroAux buf.reverse 0)
    (hepl : epl = expected_padding_len (p.count + 16))
    (hfv : fv = decodeVersionLE ((buf.drop (20 - pf)).take 4))
    (hok : pf ≤ 16 ∧ (16 - pf = epl ∨ pf = 16)) :
    (hv ≠ fv → FbxFooter.readFromParser p =
      some (.error (.HeaderFooterVersionMismatch hv fv))) ∧
    (hv = fv → ∃ u1 u2 p', FbxFooter.readFromParser p =
      some (.ok (⟨u1, fv, u2⟩, p'))) ∧
    ((∀ x ∈ p.input, x < 256) →
      fv = leDecode ((buf.drop (20 - pf)).take 4)) := by
  have hu := footer_unfold p buf pf epl fv hlen hbuf hpf hepl hfv
  have hnot : ¬(¬(16 - pf = epl) ∧ ¬(pf = 16)) := by tauto
  refine ⟨?_, ?_, ?_⟩
  · intro hne
    rw [hu, if_neg (by omega), if_neg hnot, hfbx]
    dsimp only
    rw [if_pos hne]
  · intro heq
    rw [hu, if_neg (by omega), if_neg hnot, hfbx]
    dsimp only
    rw [if_neg (by simp [heq])]
    exact ⟨_, _, _, rfl⟩
  · intro hbytes
    have hblen : buf.length = 144 := by
      rw [hbuf]
      simp
      omega
    have hslice : ((buf.drop (20 - pf)).take 4).length = 4 := by
      simp [hblen]
      omega
    obtain ⟨a, b, c, d, habcd⟩ := list_length_four _ hslice
    have hmem : ∀ x ∈ (buf.drop (20 - pf)).take 4, x < 256 := by
      intro x hx
      apply hbytes
      have hx1 : x ∈ buf :=
        List.mem_of_mem_drop (List.mem_of_mem_take hx)
      rw [hbuf] at hx1
      exact List.mem_of_mem_drop (List.mem_of_mem_take hx1)
    rw [hfv, habcd]
    rw [habcd] at hmem
    exact decodeVersionLE_eq_leDecode a b c d
      (hmem a (by simp)) (hmem b (by simp)) (hmem c (by simp))
      (hmem d (by simp))

/-- Witness for C4 at a concrete correctly padded input with matching
header and footer versions 7400. -/
theorem C4_witness :
    ((BinaryParser.mk paddedFooterInput 2 (some 7400) []).fbx_version =
      some 7400) ∧
    ((7400 ≠ 7400 → FbxFooter.readFromParser
        (BinaryParser.mk paddedFooterInput 2 (some 7400) []) =
      some (.error (.HeaderFooterVersionMismatch 7400 7400))) ∧
    (7400 = 7400 → ∃ u1 u2 p', FbxFooter.readFromParser
        (BinaryParser.mk paddedFooterInput 2 (some 7400) []) =
      some (.ok (⟨u1, 7400, u2⟩, p'))) ∧
    ((∀ x ∈ (BinaryParser.mk paddedFooterInput 2 (some 7400) []).input,
        x < 256) →
      (7400 : Nat) = leDecode
        ((((List.replicate 18 0 ++ ([232, 28, 0, 0] ++
          (List.replicate 120 0 ++ [7, 7]))) : List Nat).drop
            (20 - 2)).take 4))) := by
  refine ⟨rfl, ?_⟩
  exact C4_footer_version
    (BinaryParser.mk paddedFooterInput 2 (some 7400) []) 7400
    (List.replicate 18 0 ++ ([232, 28, 0, 0] ++ (List.replicate 120 0 ++
      [7, 7]))) 2 14 7400
    rfl (by decide) (by decide) (by decide) (by decide) (by decide)
    ⟨by decide, by decide⟩

end Fbxcel
